import Mathlib

/-! base32d: a verification development for the decoder of `src/base32.c`.

The C code is embedded shallowly.

* A C string is the list of its characters, as byte codes (`List Nat`); the
  terminating NUL is not part of the list, so `strlen` is the list length.
* `size_t` is a 64-bit unsigned integer: subtraction, addition and
  multiplication on it are taken modulo `2 ^ 64`.
* The loop counter `i` of `base32_decode` is an `int32_t`: incrementing it at
  `INT32_MAX` is undefined behaviour and is reported as a fault.
* `char` is signed (the value `0xFF` returned by `base32_decode_char` is the
  `-1` of its doc comment); the operands of `<<`, `>>`, `&` are promoted to
  `int`, so they are integers here, and a store to a `char` keeps the low eight
  bits.
* The destination buffer is a log of byte stores.  `malloc` is assumed to
  succeed, and a store is recorded whatever its index is: whether it lies
  inside the allocation is a property proved (or refuted) about the log.
* A read of `source[k]` with `k > strlen(source)` is a fault.
-/

namespace Base32

/-! ## Machine arithmetic -/

/-- The constant `QUANTA_SIZE` of `base32.c`. -/
def QUANTA_SIZE : Nat := 8

/-- Number of values of `size_t` (64-bit). -/
def SIZE_MOD : Nat := 2 ^ 64

/-- Largest value of `int32_t`. -/
def INT32_MAX : Nat := 2147483647

/-- Subtraction on `size_t` (operands below `SIZE_MOD`): wraps around below zero. -/
def size_sub (a b : Nat) : Nat := (a + SIZE_MOD - b) % SIZE_MOD

/-- Addition on `size_t`. -/
def size_add (a b : Nat) : Nat := (a + b) % SIZE_MOD

/-- Multiplication on `size_t`. -/
def size_mul (a b : Nat) : Nat := (a * b) % SIZE_MOD

/-- The C function `strlen`: the number of characters before the NUL. -/
def strlen (source : List Nat) : Nat := source.length

/-- Left shift `v << k` on `int`. -/
def shl (v : Int) (k : Nat) : Int := v * 2 ^ k

/-- Right shift `v >> k` on `int` (arithmetic: rounds towards minus infinity). -/
def shr (v : Int) (k : Nat) : Int := v >>> k

/-- The mask `v & 0x1F` on `int` (two's complement): the low five bits. -/
def and_1F (v : Int) : Int := v % 32

/-- Conversion of an `int` to the bit pattern of a `char`: the low eight bits. -/
def to_char (v : Int) : Nat := (v % 256).toNat

/-! ## The helpers of `base32.c` -/

/-- The function `base32_decode_char`: `'A'..'Z'` is 65..90, `'2'..'7'` is 50..55,
`'a'..'z'` is 97..122; the result is the `char` promoted to `int`. -/
def base32_decode_char (c : Nat) : Int :=
  if 65 ≤ c ∧ c ≤ 90 then (c : Int) - 65
  else if 50 ≤ c ∧ c ≤ 55 then (c : Int) - 50 + 26
  else if 97 ≤ c ∧ c ≤ 122 then (c : Int) - 97
  else -1

/-- The loop of `base32_calc_padding_amount`, from counter `i` and count
`padding_amount`; `'='` is 61 and the newline is 10.  The index
`source_len - i` lies in `1 .. source_len - 1`. -/
def padding_loop (source : List Nat) (source_len : Nat) : Nat → Nat → Nat → Nat
  | 0, _, padding_amount => padding_amount
  | fuel + 1, i, padding_amount =>
    if i < source_len then
      let c := source.getD (source_len - i) 0
      if c = 61 then padding_loop source source_len fuel (i + 1) (padding_amount + 1)
      else if c = 10 then padding_loop source source_len fuel (i + 1) padding_amount
      else padding_amount
    else padding_amount

/-- The function `base32_calc_padding_amount`. -/
def base32_calc_padding_amount (source : List Nat) : Nat :=
  padding_loop source (strlen source) (strlen source) 1 0

/-- The function `base32_calc_quanta_amount`. -/
def base32_calc_quanta_amount (source : List Nat) (padding_amount : Nat) : Nat :=
  size_sub (size_sub (strlen source) 1) padding_amount / QUANTA_SIZE

/-- The function `base32_calc_last_quanta_len`. -/
def base32_calc_last_quanta_len (source : List Nat) (padding_amount : Nat) : Nat :=
  size_sub (size_sub (strlen source) 1) padding_amount % QUANTA_SIZE

/-- The function `base32_calc_decoded_size`. -/
def base32_calc_decoded_size (source : List Nat) (padding_amount last_quantum_len : Nat) :
    Nat :=
  let len := size_mul (base32_calc_quanta_amount source padding_amount) 5
  match last_quantum_len with
  | 8 => len
  | 7 => size_add len 4
  | 5 => size_add len 2
  | 4 => size_add len 2
  | 2 => size_add len 1
  | _ => 0

/-! ## The destination buffer and the ways `base32_decode` ends -/

/-- The destination memory: the log of the stores `(index, byte)`, the most
recent first. -/
abbrev Mem := List (Nat × Nat)

/-- A store of a `char` at index `i` of the buffer. -/
def store (m : Mem) (i v : Nat) : Mem := (i, v % 256) :: m

/-- The byte at index `i` of the buffer: the most recent store there. -/
def load : Mem → Nat → Nat
  | [], _ => 0
  | (a, v) :: m, i => if a = i then v else load m i

/-- The ways the unpacking loop of `base32_decode` stops early: the `default`
branch of the switch (`return NULL` with the buffer still allocated), or
undefined behaviour: a read of `source[index]` past the terminating NUL, or the
increment of the counter `i` at `INT32_MAX`. -/
inductive Abort
  | invalid_quantum (quantum_len : Nat)
  | read_oob (index : Nat)
  | int_overflow
  deriving DecidableEq, Repr

/-- How an execution of `base32_decode` ends: `return NULL` on a zero decoded
size, an early stop of the unpacking loop, or `return buffer` with the size
passed to `malloc` and the stores made. -/
inductive Exec
  | invalid_size
  | aborted (a : Abort)
  | returned (decoded_len : Nat) (mem : Mem)
  deriving DecidableEq, Repr

/-- A read of `source[index]`: a character, the terminating NUL, or a fault
past it. -/
def read_char (source : List Nat) (index : Nat) : Except Abort Nat :=
  if index < source.length then .ok (source.getD index 0)
  else if index = source.length then .ok 0
  else .error (.read_oob index)

/-- The statement `dst[d] = f(base32_decode_char(src[k]));`. -/
def assign (source : List Nat) (src dst d k : Nat) (f : Int → Int) (m : Mem) :
    Except Abort Mem := do
  let c ← read_char source (src + k)
  pure (store m (dst + d) (to_char (f (base32_decode_char c))))

/-- The statement `dst[d] |= f(base32_decode_char(src[k]));`. -/
def or_assign (source : List Nat) (src dst d k : Nat) (f : Int → Int) (m : Mem) :
    Except Abort Mem := do
  let c ← read_char source (src + k)
  pure (store m (dst + d) (load m (dst + d) ||| to_char (f (base32_decode_char c))))

/-- The statements under `case 2:` up to the `break`. -/
def case_2 (source : List Nat) (src dst : Nat) (m : Mem) : Except Abort Mem := do
  let m ← assign source src dst 0 1 (fun v => shr v 2) m
  or_assign source src dst 0 0 (fun v => shl v 3) m

/-- The statements under `case 4:`, falling through to `case 2:`. -/
def case_4 (source : List Nat) (src dst : Nat) (m : Mem) : Except Abort Mem := do
  let m ← assign source src dst 1 3 (fun v => shr v 4) m
  let m ← or_assign source src dst 1 2 (fun v => shl (and_1F v) 1) m
  let m ← or_assign source src dst 1 1 (fun v => shl v 6) m
  case_2 source src dst m

/-- The statements under `case 5:`, falling through to `case 4:`. -/
def case_5 (source : List Nat) (src dst : Nat) (m : Mem) : Except Abort Mem := do
  let m ← assign source src dst 2 4 (fun v => shr v 1) m
  let m ← or_assign source src dst 2 3 (fun v => shl v 4) m
  case_4 source src dst m

/-- The statements under `case 7:`, falling through to `case 5:`. -/
def case_7 (source : List Nat) (src dst : Nat) (m : Mem) : Except Abort Mem := do
  let m ← assign source src dst 3 6 (fun v => shr v 3) m
  let m ← or_assign source src dst 3 5 (fun v => shl (and_1F v) 2) m
  let m ← or_assign source src dst 3 4 (fun v => shl v 7) m
  case_5 source src dst m

/-- The statements under `case 8:`, falling through to `case 7:`. -/
def case_8 (source : List Nat) (src dst : Nat) (m : Mem) : Except Abort Mem := do
  let m ← assign source src dst 4 7 (fun v => v) m
  let m ← or_assign source src dst 4 6 (fun v => shl v 5) m
  case_7 source src dst m

/-- The `switch (quantum_len)` of `base32_decode`, with `src` and `dst` the
offsets of `partial_source` and `partial_destination`. -/
def unpack_quantum (source : List Nat) (src dst quantum_len : Nat) (m : Mem) :
    Except Abort Mem :=
  match quantum_len with
  | 8 => case_8 source src dst m
  | 7 => case_7 source src dst m
  | 5 => case_5 source src dst m
  | 4 => case_4 source src dst m
  | 2 => case_2 source src dst m
  | _ => .error (.invalid_quantum quantum_len)

/-- The `for` loop of `base32_decode`, from counter `i`. -/
def decode_loop (source : List Nat) (quanta_amount last_quantum_len : Nat) :
    Nat → Nat → Nat → Nat → Mem → Except Abort Mem
  | 0, _, _, _, m => .ok m
  | fuel + 1, i, src, dst, m =>
    if i < quanta_amount then do
      let quantum_len := if i = size_sub quanta_amount 1 then last_quantum_len else 8
      let m ← unpack_quantum source src dst quantum_len m
      if i = INT32_MAX then .error .int_overflow
      else decode_loop source quanta_amount last_quantum_len fuel (i + 1) (src + 8) (dst + 5) m
    else .ok m

/-- The function `base32_decode`, with the stores it makes. -/
def base32_decode_exec (source : List Nat) : Exec :=
  let padding_amount := base32_calc_padding_amount source
  let quanta_amount₀ := base32_calc_quanta_amount source padding_amount
  let last_quantum_len₀ := base32_calc_last_quanta_len source padding_amount
  let quanta_amount := if last_quantum_len₀ > 0 then size_add quanta_amount₀ 1 else quanta_amount₀
  let last_quantum_len := if last_quantum_len₀ > 0 then last_quantum_len₀ else QUANTA_SIZE
  let decoded_len := base32_calc_decoded_size source padding_amount last_quantum_len
  if decoded_len ≤ 0 then .invalid_size
  else
    match decode_loop source quanta_amount last_quantum_len quanta_amount 0 0 0 [] with
    | .error a => .aborted a
    | .ok m => .returned decoded_len (store m decoded_len 0)

/-- What the caller of `base32_decode` gets: `NULL`, a buffer holding the
decoded bytes before its terminator, or undefined behaviour. -/
inductive Outcome
  | null
  | buffer (bytes : List Nat)
  | undefined
  deriving DecidableEq, Repr

/-- The bytes at the indices `0 .. decoded_len - 1` of the buffer. -/
def contents (decoded_len : Nat) (m : Mem) : List Nat :=
  (List.range decoded_len).map (load m)

/-- The function `base32_decode`, as its caller sees it. -/
def base32_decode (source : List Nat) : Outcome :=
  match base32_decode_exec source with
  | .invalid_size => .null
  | .aborted (.invalid_quantum _) => .null
  | .aborted _ => .undefined
  | .returned decoded_len m => .buffer (contents decoded_len m)


/-! ## Derived descriptions used by the proofs -/

/-- Byte `d` of the quantum whose characters start at offset `src`, as the
statements of the unpacking switch compute it. -/
def quantum_byte (source : List Nat) (src d : Nat) : Nat :=
  let v := fun k => base32_decode_char (source.getD (src + k) 0)
  match d with
  | 0 => to_char (shr (v 1) 2) ||| to_char (shl (v 0) 3)
  | 1 => to_char (shr (v 3) 4) ||| to_char (shl (and_1F (v 2)) 1) ||| to_char (shl (v 1) 6)
  | 2 => to_char (shr (v 4) 1) ||| to_char (shl (v 3) 4)
  | 3 => to_char (shr (v 6) 3) ||| to_char (shl (and_1F (v 5)) 2) ||| to_char (shl (v 4) 7)
  | 4 => to_char (v 7) ||| to_char (shl (v 6) 5)
  | _ => 0

/-- Number of destination bytes the unpacking switch stores for a quantum of
`quantum_len` characters. -/
def bytes_written (quantum_len : Nat) : Nat :=
  match quantum_len with
  | 8 => 5
  | 7 => 4
  | 5 => 3
  | 4 => 2
  | 2 => 1
  | _ => 0

/-- The content length the decoder works with: `(strlen(source) - 1) - padding_amount`,
of which `base32_calc_quanta_amount` is the quotient and
`base32_calc_last_quanta_len` the remainder by `QUANTA_SIZE`. -/
def content_length (source : List Nat) : Nat :=
  size_sub (size_sub (strlen source) 1) (base32_calc_padding_amount source)

/-- Number of bytes that `base32_calc_decoded_size` adds to `quanta * 5` for a
content whose length has remainder `r` modulo 8 (a remainder 0 makes the last
quantum a full one, already counted). -/
def trailing_bytes (r : Nat) : Nat :=
  match r with
  | 7 => 4
  | 5 => 2
  | 4 => 2
  | 2 => 1
  | _ => 0

/-- The decoded size computed for a source with a valid content length. -/
def decoded_size (source : List Nat) : Nat :=
  5 * (content_length source / 8) + trailing_bytes (content_length source % 8)

/-- The count kept by the loop of `base32_calc_padding_amount` over the
characters it meets, last character first: `'='` counts, a newline is skipped,
any other character stops the scan. -/
def trailing_pad : List Nat → Nat
  | [] => 0
  | c :: rest => if c = 61 then trailing_pad rest + 1 else if c = 10 then trailing_pad rest else 0

/-- The number of quanta the loop of `base32_decode` goes through: one more
than the full quanta when the content ends in a partial quantum. -/
def loop_quanta (source : List Nat) : Nat :=
  if content_length source % 8 > 0 then content_length source / 8 + 1
  else content_length source / 8

/-! ## The vocabulary of the specification -/

/-- The characters of the decoding alphabet: `A-Z`, `a-z` and `2-7`. -/
def is_alphabet (c : Nat) : Prop :=
  (65 ≤ c ∧ c ≤ 90) ∨ (97 ≤ c ∧ c ≤ 122) ∨ (50 ≤ c ∧ c ≤ 55)

instance (c : Nat) : Decidable (is_alphabet c) := by
  unfold is_alphabet
  infer_instance

/-- The 5-bit value of a character in the words of the specification:
`A-Z` is 0-25, `2-7` is 26-31, lowercase folded onto uppercase. -/
def symbol_value (c : Nat) : Nat :=
  if 65 ≤ c ∧ c ≤ 90 then c - 65
  else if 97 ≤ c ∧ c ≤ 122 then c - 97
  else if 50 ≤ c ∧ c ≤ 55 then c - 50 + 26
  else 0

/-- The lowercase letter of an uppercase letter `A-Z`; any other character is
left as it is. -/
def to_lower (c : Nat) : Nat :=
  if 65 ≤ c ∧ c ≤ 90 then c + 32 else c

/-- The character of `source[index]` decoded by `base32_decode_char`, as the
statements of the unpacking switch obtain it. -/
def read_symbol (source : List Nat) (index : Nat) : Except Abort Int :=
  (read_char source index).map base32_decode_char

/-- Padding in the words of the specification: the number of `'='` in the
longest suffix of the input made of `'='` and newline characters only. -/
def spec_padding (source : List Nat) : Nat :=
  (source.reverse.takeWhile (fun c => c = 61 ∨ c = 10)).count 61

theorem to_char_lt (v : Int) : to_char v < 256 := by
  unfold to_char
  omega

theorem or_lt_256 {a b : Nat} (ha : a < 256) (hb : b < 256) : a ||| b < 256 :=
  Nat.or_lt_two_pow (n := 8) ha hb

@[simp] theorem to_char_mod (v : Int) : to_char v % 256 = to_char v :=
  Nat.mod_eq_of_lt (to_char_lt v)

@[simp] theorem to_char_or_mod (a b : Int) :
    (to_char a ||| to_char b) % 256 = to_char a ||| to_char b :=
  Nat.mod_eq_of_lt (or_lt_256 (to_char_lt a) (to_char_lt b))

@[simp] theorem to_char_or_or_mod (a b c : Int) :
    (to_char a ||| to_char b ||| to_char c) % 256 = to_char a ||| to_char b ||| to_char c :=
  Nat.mod_eq_of_lt (or_lt_256 (or_lt_256 (to_char_lt a) (to_char_lt b)) (to_char_lt c))

theorem load_store (m : Mem) (i v j : Nat) :
    load (store m i v) j = if j = i then v % 256 else load m j := by
  by_cases h : j = i
  · simp [load, store, h]
  · have h2 : ¬ i = j := fun e => h e.symm
    simp [load, store, h, h2]

theorem read_char_ok {source : List Nat} {i : Nat} (h : i ≤ source.length) :
    read_char source i = .ok (source.getD i 0) := by
  by_cases hlt : i < source.length
  · simp [read_char, hlt]
  · have he : i = source.length := by omega
    subst he
    simp [read_char]

/-! ## The unpacking switch -/

theorem assign_ok (source : List Nat) (src k dst d : Nat) (f : Int → Int) (m : Mem)
    (h : src + k ≤ source.length) :
    ∃ m1, assign source src dst d k f m = .ok m1 ∧
      ∀ j, load m1 j = if j = dst + d
        then to_char (f (base32_decode_char (source.getD (src + k) 0))) else load m j := by
  refine ⟨_, by simp only [assign, read_char_ok h, bind, Except.bind]; rfl, ?_⟩
  intro j
  rw [load_store, to_char_mod]

theorem or_assign_ok (source : List Nat) (src k dst d : Nat) (f : Int → Int) (m : Mem)
    (h : src + k ≤ source.length) :
    ∃ m1, or_assign source src dst d k f m = .ok m1 ∧
      ∀ j, load m1 j = if j = dst + d
        then (load m (dst + d) ||| to_char (f (base32_decode_char (source.getD (src + k) 0)))) % 256
        else load m j := by
  refine ⟨_, by simp only [or_assign, read_char_ok h, bind, Except.bind]; rfl, ?_⟩
  intro j
  rw [load_store]

theorem case_2_ok (source : List Nat) (src dst : Nat) (m : Mem)
    (h : src + 2 ≤ source.length + 1) :
    ∃ m1, case_2 source src dst m = .ok m1 ∧
      ∀ j, load m1 j = if j = dst then quantum_byte source src 0 else load m j := by
  obtain ⟨m1, e1, l1⟩ := assign_ok source src 1 dst 0
    (fun v => shr v 2) m (by omega)
  obtain ⟨m2, e2, l2⟩ := or_assign_ok source src 0 dst 0
    (fun v => shl v 3) m1 (by omega)
  refine ⟨m2, by simp only [case_2, e1, e2, bind, Except.bind], ?_⟩
  intro j
  rw [l2, l1]
  by_cases hj : j = dst
  · simp [hj, quantum_byte]
  · simp [hj, l1]

theorem case_4_ok (source : List Nat) (src dst : Nat) (m : Mem)
    (h : src + 4 ≤ source.length + 1) :
    ∃ m1, case_4 source src dst m = .ok m1 ∧
      ∀ j, load m1 j = if j = dst then quantum_byte source src 0
        else if j = dst + 1 then quantum_byte source src 1 else load m j := by
  obtain ⟨m1, e1, l1⟩ := assign_ok source src 3 dst 1
    (fun v => shr v 4) m (by omega)
  obtain ⟨m2, e2, l2⟩ := or_assign_ok source src 2 dst 1
    (fun v => shl (and_1F v) 1) m1 (by omega)
  obtain ⟨m3, e3, l3⟩ := or_assign_ok source src 1 dst 1
    (fun v => shl v 6) m2 (by omega)
  obtain ⟨m4, e4, l4⟩ := case_2_ok source src dst m3 (by omega)
  refine ⟨m4, by simp only [case_4, e1, e2, e3, e4, bind, Except.bind], ?_⟩
  intro j
  rw [l4]
  by_cases hj : j = dst
  · simp [hj]
  · by_cases hj1 : j = dst + 1
    · simp [hj1, l3, l2, l1, quantum_byte]
    · simp [hj, hj1, l3, l2, l1]

theorem case_5_ok (source : List Nat) (src dst : Nat) (m : Mem)
    (h : src + 5 ≤ source.length + 1) :
    ∃ m1, case_5 source src dst m = .ok m1 ∧
      ∀ j, load m1 j = if j = dst then quantum_byte source src 0
        else if j = dst + 1 then quantum_byte source src 1
        else if j = dst + 2 then quantum_byte source src 2 else load m j := by
  obtain ⟨m1, e1, l1⟩ := assign_ok source src 4 dst 2
    (fun v => shr v 1) m (by omega)
  obtain ⟨m2, e2, l2⟩ := or_assign_ok source src 3 dst 2
    (fun v => shl v 4) m1 (by omega)
  obtain ⟨m3, e3, l3⟩ := case_4_ok source src dst m2 (by omega)
  refine ⟨m3, by simp only [case_5, e1, e2, e3, bind, Except.bind], ?_⟩
  intro j
  rw [l3]
  by_cases hj : j = dst
  · simp [hj]
  · by_cases hj1 : j = dst + 1
    · simp [hj1]
    · by_cases hj2 : j = dst + 2
      · simp [hj2, l2, l1, quantum_byte]
      · simp [hj, hj1, hj2, l2, l1]

theorem case_7_ok (source : List Nat) (src dst : Nat) (m : Mem)
    (h : src + 7 ≤ source.length + 1) :
    ∃ m1, case_7 source src dst m = .ok m1 ∧
      ∀ j, load m1 j = if j = dst then quantum_byte source src 0
        else if j = dst + 1 then quantum_byte source src 1
        else if j = dst + 2 then quantum_byte source src 2
        else if j = dst + 3 then quantum_byte source src 3 else load m j := by
  obtain ⟨m1, e1, l1⟩ := assign_ok source src 6 dst 3
    (fun v => shr v 3) m (by omega)
  obtain ⟨m2, e2, l2⟩ := or_assign_ok source src 5 dst 3
    (fun v => shl (and_1F v) 2) m1 (by omega)
  obtain ⟨m3, e3, l3⟩ := or_assign_ok source src 4 dst 3
    (fun v => shl v 7) m2 (by omega)
  obtain ⟨m4, e4, l4⟩ := case_5_ok source src dst m3 (by omega)
  refine ⟨m4, by simp only [case_7, e1, e2, e3, e4, bind, Except.bind], ?_⟩
  intro j
  rw [l4]
  by_cases hj : j = dst
  · simp [hj]
  · by_cases hj1 : j = dst + 1
    · simp [hj1]
    · by_cases hj2 : j = dst + 2
      · simp [hj2]
      · by_cases hj3 : j = dst + 3
        · simp [hj3, l3, l2, l1, quantum_byte]
        · simp [hj, hj1, hj2, hj3, l3, l2, l1]

theorem case_8_ok (source : List Nat) (src dst : Nat) (m : Mem)
    (h : src + 8 ≤ source.length + 1) :
    ∃ m1, case_8 source src dst m = .ok m1 ∧
      ∀ j, load m1 j = if j = dst then quantum_byte source src 0
        else if j = dst + 1 then quantum_byte source src 1
        else if j = dst + 2 then quantum_byte source src 2
        else if j = dst + 3 then quantum_byte source src 3
        else if j = dst + 4 then quantum_byte source src 4 else load m j := by
  obtain ⟨m1, e1, l1⟩ := assign_ok source src 7 dst 4
    (fun v => v) m (by omega)
  obtain ⟨m2, e2, l2⟩ := or_assign_ok source src 6 dst 4
    (fun v => shl v 5) m1 (by omega)
  obtain ⟨m3, e3, l3⟩ := case_7_ok source src dst m2 (by omega)
  refine ⟨m3, by simp only [case_8, e1, e2, e3, bind, Except.bind], ?_⟩
  intro j
  rw [l3]
  by_cases hj : j = dst
  · simp [hj]
  · by_cases hj1 : j = dst + 1
    · simp [hj1]
    · by_cases hj2 : j = dst + 2
      · simp [hj2]
      · by_cases hj3 : j = dst + 3
        · simp [hj3]
        · by_cases hj4 : j = dst + 4
          · simp [hj4, l2, l1, quantum_byte]
          · simp [hj, hj1, hj2, hj3, hj4, l2, l1]

theorem unpack_quantum_ok (source : List Nat) (src dst quantum_len : Nat) (m : Mem)
    (hL : quantum_len = 8 ∨ quantum_len = 7 ∨ quantum_len = 5 ∨ quantum_len = 4 ∨
      quantum_len = 2)
    (h : src + quantum_len ≤ source.length + 1) :
    ∃ m1, unpack_quantum source src dst quantum_len m = .ok m1 ∧
      ∀ j, load m1 j = if dst ≤ j ∧ j < dst + bytes_written quantum_len
        then quantum_byte source src (j - dst) else load m j := by
  rcases hL with e | e | e | e | e <;> subst e
  · obtain ⟨m1, e1, l1⟩ := case_8_ok source src dst m h
    refine ⟨m1, e1, fun j => ?_⟩
    rw [l1]
    simp only [bytes_written]
    by_cases h0 : j = dst
    · simp [h0]
    by_cases h1 : j = dst + 1
    · simp [h1]
    by_cases h2 : j = dst + 2
    · simp [h2]
    by_cases h3 : j = dst + 3
    · simp [h3]
    by_cases h4 : j = dst + 4
    · simp [h4]
    have : ¬ (dst ≤ j ∧ j < dst + 5) := by omega
    simp [h0, h1, h2, h3, h4, this]
  · obtain ⟨m1, e1, l1⟩ := case_7_ok source src dst m h
    refine ⟨m1, e1, fun j => ?_⟩
    rw [l1]
    simp only [bytes_written]
    by_cases h0 : j = dst
    · simp [h0]
    by_cases h1 : j = dst + 1
    · simp [h1]
    by_cases h2 : j = dst + 2
    · simp [h2]
    by_cases h3 : j = dst + 3
    · simp [h3]
    have : ¬ (dst ≤ j ∧ j < dst + 4) := by omega
    simp [h0, h1, h2, h3, this]
  · obtain ⟨m1, e1, l1⟩ := case_5_ok source src dst m h
    refine ⟨m1, e1, fun j => ?_⟩
    rw [l1]
    simp only [bytes_written]
    by_cases h0 : j = dst
    · simp [h0]
    by_cases h1 : j = dst + 1
    · simp [h1]
    by_cases h2 : j = dst + 2
    · simp [h2]
    have : ¬ (dst ≤ j ∧ j < dst + 3) := by omega
    simp [h0, h1, h2, this]
  · obtain ⟨m1, e1, l1⟩ := case_4_ok source src dst m h
    refine ⟨m1, e1, fun j => ?_⟩
    rw [l1]
    simp only [bytes_written]
    by_cases h0 : j = dst
    · simp [h0]
    by_cases h1 : j = dst + 1
    · simp [h1]
    have : ¬ (dst ≤ j ∧ j < dst + 2) := by omega
    simp [h0, h1, this]
  · obtain ⟨m1, e1, l1⟩ := case_2_ok source src dst m h
    refine ⟨m1, e1, fun j => ?_⟩
    rw [l1]
    simp only [bytes_written]
    by_cases h0 : j = dst
    · simp [h0]
    have : ¬ (dst ≤ j ∧ j < dst + 1) := by omega
    simp [h0, this]

/-! ## The decoding loop -/

theorem size_sub_eq {a b : Nat} (hb : b ≤ a) (ha : a < SIZE_MOD) : size_sub a b = a - b := by
  unfold size_sub SIZE_MOD at *
  omega

theorem decode_loop_succ (source : List Nat) (quanta_amount last_quantum_len : Nat)
    (fuel i src dst : Nat) (m : Mem) :
    decode_loop source quanta_amount last_quantum_len (fuel + 1) i src dst m =
      if i < quanta_amount then
        (unpack_quantum source src dst
          (if i = size_sub quanta_amount 1 then last_quantum_len else 8) m).bind
          (fun m1 => if i = INT32_MAX then .error .int_overflow
            else decode_loop source quanta_amount last_quantum_len fuel (i + 1) (src + 8)
              (dst + 5) m1)
      else .ok m := rfl

theorem decode_loop_ok (source : List Nat) (quanta_amount last_quantum_len : Nat)
    (hL : last_quantum_len = 8 ∨ last_quantum_len = 7 ∨ last_quantum_len = 5 ∨
      last_quantum_len = 4 ∨ last_quantum_len = 2)
    (hq1 : 1 ≤ quanta_amount) (hq : quanta_amount ≤ INT32_MAX)
    (hlen : 8 * (quanta_amount - 1) + last_quantum_len ≤ source.length + 1) :
    ∀ (fuel i : Nat) (m : Mem), i + fuel = quanta_amount →
      ∃ m1, decode_loop source quanta_amount last_quantum_len fuel i (8 * i) (5 * i) m = .ok m1 ∧
        ∀ j, load m1 j =
          if 5 * i ≤ j ∧ j < 5 * (quanta_amount - 1) + bytes_written last_quantum_len
          then quantum_byte source (8 * (j / 5)) (j % 5) else load m j := by
  have hw : 1 ≤ bytes_written last_quantum_len ∧ bytes_written last_quantum_len ≤ 5 := by
    rcases hL with e | e | e | e | e <;> subst e <;> simp [bytes_written]
  intro fuel
  induction fuel with
  | zero =>
    intro i m hi
    refine ⟨m, rfl, fun j => ?_⟩
    have : ¬ (5 * i ≤ j ∧ j < 5 * (quanta_amount - 1) + bytes_written last_quantum_len) := by
      omega
    simp [this]
  | succ fuel ih =>
    intro i m hi
    have hiq : i < quanta_amount := by omega
    have hsub : size_sub quanta_amount 1 = quanta_amount - 1 :=
      size_sub_eq (by omega) (by unfold INT32_MAX at hq; unfold SIZE_MOD; omega)
    have hne : i ≠ INT32_MAX := by omega
    by_cases hlast : i = quanta_amount - 1
    · obtain ⟨m1, e1, l1⟩ := unpack_quantum_ok source (8 * i) (5 * i) last_quantum_len m hL
        (by omega)
      obtain ⟨m2, e2, l2⟩ := ih (i + 1) m1 (by omega)
      refine ⟨m2, ?_, fun j => ?_⟩
      · rw [decode_loop_succ, if_pos hiq, hsub, if_pos hlast, e1]
        simp only [Except.bind, if_neg hne]
        exact e2
      · rw [l2, l1]
        by_cases c1 : 5 * i ≤ j ∧ j < 5 * i + bytes_written last_quantum_len
        · have c2 : 5 * i ≤ j ∧ j < 5 * (quanta_amount - 1) + bytes_written last_quantum_len := by
            omega
          have c3 : ¬ (5 * (i + 1) ≤ j ∧
              j < 5 * (quanta_amount - 1) + bytes_written last_quantum_len) := by omega
          have c4 : j / 5 = i := by omega
          have c5 : j % 5 = j - 5 * i := by omega
          simp [c1, c2, c3, c4, c5]
        · have c2 : ¬ (5 * i ≤ j ∧
              j < 5 * (quanta_amount - 1) + bytes_written last_quantum_len) := by omega
          have c3 : ¬ (5 * (i + 1) ≤ j ∧
              j < 5 * (quanta_amount - 1) + bytes_written last_quantum_len) := by omega
          simp [c1, c2, c3]
    · obtain ⟨m1, e1, l1⟩ := unpack_quantum_ok source (8 * i) (5 * i) 8 m (Or.inl rfl)
        (by omega)
      obtain ⟨m2, e2, l2⟩ := ih (i + 1) m1 (by omega)
      refine ⟨m2, ?_, fun j => ?_⟩
      · rw [decode_loop_succ, if_pos hiq, hsub, if_neg hlast, e1]
        simp only [Except.bind, if_neg hne]
        exact e2
      · have hb8 : bytes_written 8 = 5 := rfl
        rw [l2, l1, hb8]
        by_cases c1 : 5 * i ≤ j ∧ j < 5 * i + 5
        · have c2 : 5 * i ≤ j ∧ j < 5 * (quanta_amount - 1) + bytes_written last_quantum_len := by
            omega
          have c3 : ¬ (5 * (i + 1) ≤ j ∧
              j < 5 * (quanta_amount - 1) + bytes_written last_quantum_len) := by omega
          have c4 : j / 5 = i := by omega
          have c5 : j % 5 = j - 5 * i := by omega
          simp [c1, c2, c3, c4, c5]
        · by_cases c3 : 5 * (i + 1) ≤ j ∧
              j < 5 * (quanta_amount - 1) + bytes_written last_quantum_len
          · have c2 : 5 * i ≤ j ∧
                j < 5 * (quanta_amount - 1) + bytes_written last_quantum_len := by omega
            simp [c2, c3]
          · have c2 : ¬ (5 * i ≤ j ∧
                j < 5 * (quanta_amount - 1) + bytes_written last_quantum_len) := by omega
            simp [c1, c2, c3]

/-! ## Padding and content length -/

theorem padding_loop_le (source : List Nat) (source_len : Nat) :
    ∀ (fuel i padding_amount : Nat),
      padding_loop source source_len fuel i padding_amount ≤ padding_amount + (source_len - i) := by
  intro fuel
  induction fuel with
  | zero => intro i p; simp [padding_loop]
  | succ fuel ih =>
    intro i p
    rw [padding_loop]
    by_cases h : i < source_len
    · simp only [h, if_true]
      split
      · have := ih (i + 1) (p + 1)
        omega
      · split
        · have := ih (i + 1) p
          omega
        · omega
    · simp [h]

theorem padding_amount_le (source : List Nat) :
    base32_calc_padding_amount source ≤ source.length - 1 := by
  have := padding_loop_le source (strlen source) (strlen source) 1 0
  simpa [base32_calc_padding_amount, strlen] using this

theorem content_length_eq (source : List Nat) (h1 : 1 ≤ source.length)
    (h2 : source.length < SIZE_MOD) :
    content_length source = source.length - 1 - base32_calc_padding_amount source := by
  have hp := padding_amount_le source
  unfold content_length strlen
  rw [size_sub_eq h1 h2, size_sub_eq hp (by omega)]

theorem content_length_lt (source : List Nat) : content_length source < SIZE_MOD := by
  unfold content_length size_sub SIZE_MOD
  omega

theorem calc_quanta_amount_eq (source : List Nat) :
    base32_calc_quanta_amount source (base32_calc_padding_amount source)
      = content_length source / 8 := rfl

theorem exec_unfold (source : List Nat) :
    base32_decode_exec source =
      if base32_calc_decoded_size source (base32_calc_padding_amount source)
          (if content_length source % 8 > 0 then content_length source % 8 else 8) ≤ 0
      then .invalid_size
      else
        match decode_loop source
          (if content_length source % 8 > 0 then size_add (content_length source / 8) 1
            else content_length source / 8)
          (if content_length source % 8 > 0 then content_length source % 8 else 8)
          (if content_length source % 8 > 0 then size_add (content_length source / 8) 1
            else content_length source / 8) 0 0 0 [] with
        | .error a => .aborted a
        | .ok m => .returned
            (base32_calc_decoded_size source (base32_calc_padding_amount source)
              (if content_length source % 8 > 0 then content_length source % 8 else 8))
            (store m (base32_calc_decoded_size source (base32_calc_padding_amount source)
              (if content_length source % 8 > 0 then content_length source % 8 else 8)) 0) := rfl

theorem calc_decoded_size_eq (source : List Nat) (r : Nat)
    (hr : r = 8 ∨ r = 7 ∨ r = 5 ∨ r = 4 ∨ r = 2) :
    base32_calc_decoded_size source (base32_calc_padding_amount source) r
      = 5 * (content_length source / 8) + trailing_bytes r := by
  have hlt := content_length_lt source
  have e : size_mul (content_length source / 8) 5 = 5 * (content_length source / 8) := by
    unfold size_mul SIZE_MOD at *
    omega
  unfold base32_calc_decoded_size
  rw [calc_quanta_amount_eq, e]
  unfold SIZE_MOD at hlt
  rcases hr with h | h | h | h | h <;> subst h <;> simp [trailing_bytes, size_add, SIZE_MOD] <;> omega

theorem calc_decoded_size_invalid (source : List Nat) (r : Nat)
    (hr : r = 1 ∨ r = 3 ∨ r = 6) :
    base32_calc_decoded_size source (base32_calc_padding_amount source) r = 0 := by
  rcases hr with h | h | h <;> subst h <;> rfl

theorem exec_invalid (source : List Nat)
    (h : content_length source = 0 ∨ content_length source % 8 = 1 ∨
      content_length source % 8 = 3 ∨ content_length source % 8 = 6) :
    base32_decode_exec source = .invalid_size := by
  rw [exec_unfold]
  rcases h with h | h
  · have e : base32_calc_decoded_size source (base32_calc_padding_amount source) 8 = 0 := by
      rw [calc_decoded_size_eq source 8 (Or.inl rfl), h]
      rfl
    simp [h, e]
  · have hpos : content_length source % 8 > 0 := by omega
    rw [if_pos hpos, calc_decoded_size_invalid source _ h]
    simp

/-- The execution on a source whose content has a valid length, whose
characters up to the content length can be read, and whose quanta the counter
of the loop can count. -/
theorem exec_returned_general (source : List Nat)
    (hread : content_length source ≤ source.length + 1)
    (hq : loop_quanta source ≤ INT32_MAX) (hn : content_length source ≠ 0)
    (hr : content_length source % 8 ≠ 1 ∧ content_length source % 8 ≠ 3 ∧
      content_length source % 8 ≠ 6) :
    ∃ m, base32_decode_exec source
        = .returned (decoded_size source) (store m (decoded_size source) 0) ∧
      ∀ j, load m j =
        if j < 5 * (content_length source / 8) + bytes_written (content_length source % 8)
        then quantum_byte source (8 * (j / 5)) (j % 5) else 0 := by
  have hcl := content_length_lt source
  rw [exec_unfold]
  by_cases h0 : content_length source % 8 = 0
  · -- the content is a whole number of quanta
    have hq1 : 1 ≤ content_length source / 8 := by omega
    have hq0 : content_length source / 8 ≤ INT32_MAX := by
      simpa [loop_quanta, h0] using hq
    have hD : base32_calc_decoded_size source (base32_calc_padding_amount source) 8
        = decoded_size source := by
      rw [calc_decoded_size_eq source 8 (Or.inl rfl), decoded_size, h0]
      rfl
    have hDpos : ¬ decoded_size source ≤ 0 := by
      unfold decoded_size
      omega
    obtain ⟨m, e, l⟩ := decode_loop_ok source (content_length source / 8) 8 (Or.inl rfl) hq1
      hq0 (by omega) (content_length source / 8) 0 [] (by omega)
    refine ⟨m, ?_, fun j => ?_⟩
    · simp only [h0, gt_iff_lt, lt_self_iff_false, if_false, hD, hDpos]
      rw [e]
    · rw [l, h0]
      have hb8 : bytes_written 8 = 5 := rfl
      have hb0 : bytes_written 0 = 0 := rfl
      rw [hb8, hb0]
      by_cases c : j < 5 * (content_length source / 8) + 0
      · have c2 : 5 * 0 ≤ j ∧ j < 5 * (content_length source / 8 - 1) + 5 := by omega
        simp only [c, c2, and_self, if_true]
      · have c2 : ¬ (5 * 0 ≤ j ∧ j < 5 * (content_length source / 8 - 1) + 5) := by omega
        simp only [c, c2, if_false]
        rfl
  · -- the last quantum is a partial one
    have hpos : content_length source % 8 > 0 := by omega
    have hL : content_length source % 8 = 8 ∨ content_length source % 8 = 7 ∨
        content_length source % 8 = 5 ∨ content_length source % 8 = 4 ∨
        content_length source % 8 = 2 := by omega
    have hD : base32_calc_decoded_size source (base32_calc_padding_amount source)
        (content_length source % 8) = decoded_size source :=
      calc_decoded_size_eq source _ hL
    have hDpos : ¬ decoded_size source ≤ 0 := by
      unfold decoded_size
      rcases hL with e | e | e | e | e
      · omega
      all_goals (rw [e]; simp [trailing_bytes])
    have hQ : size_add (content_length source / 8) 1 = content_length source / 8 + 1 := by
      unfold size_add
      unfold SIZE_MOD at *
      omega
    have hq2 : content_length source / 8 + 1 ≤ INT32_MAX := by
      simpa [loop_quanta, hpos] using hq
    obtain ⟨m, e, l⟩ := decode_loop_ok source (content_length source / 8 + 1)
      (content_length source % 8) hL (by omega) hq2 (by omega)
      (content_length source / 8 + 1) 0 [] (by omega)
    refine ⟨m, ?_, fun j => ?_⟩
    · simp only [hpos, if_true, hD, hDpos, if_false, hQ]
      rw [e]
    · rw [l]
      by_cases c : j < 5 * (content_length source / 8) + bytes_written (content_length source % 8)
      · have c2 : 5 * 0 ≤ j ∧ j < 5 * (content_length source / 8 + 1 - 1)
            + bytes_written (content_length source % 8) := by
          simp only [Nat.add_sub_cancel]
          omega
        simp only [c, c2, and_self, if_true]
      · have c2 : ¬ (5 * 0 ≤ j ∧ j < 5 * (content_length source / 8 + 1 - 1)
            + bytes_written (content_length source % 8)) := by
          simp only [Nat.add_sub_cancel]
          omega
        simp only [c, c2, if_false]
        rfl

theorem line_bounds (source : List Nat) (h1 : 1 ≤ source.length)
    (h2 : source.length ≤ 8 * INT32_MAX) :
    content_length source ≤ source.length + 1 ∧ loop_quanta source ≤ INT32_MAX := by
  have hlen : source.length < SIZE_MOD := by
    unfold INT32_MAX at h2
    unfold SIZE_MOD
    omega
  have hn_eq := content_length_eq source h1 hlen
  constructor
  · omega
  · unfold loop_quanta
    unfold INT32_MAX at *
    split <;> omega

theorem exec_returned (source : List Nat) (h1 : 1 ≤ source.length)
    (h2 : source.length ≤ 8 * INT32_MAX) (hn : content_length source ≠ 0)
    (hr : content_length source % 8 ≠ 1 ∧ content_length source % 8 ≠ 3 ∧
      content_length source % 8 ≠ 6) :
    ∃ m, base32_decode_exec source
        = .returned (decoded_size source) (store m (decoded_size source) 0) ∧
      ∀ j, load m j =
        if j < 5 * (content_length source / 8) + bytes_written (content_length source % 8)
        then quantum_byte source (8 * (j / 5)) (j % 5) else 0 :=
  exec_returned_general source (line_bounds source h1 h2).1 (line_bounds source h1 h2).2 hn hr

theorem base32_decode_invalid (source : List Nat)
    (h : content_length source = 0 ∨ content_length source % 8 = 1 ∨
      content_length source % 8 = 3 ∨ content_length source % 8 = 6) :
    base32_decode source = .null := by
  simp [base32_decode, exec_invalid source h]

theorem padding_loop_eq (source : List Nat) :
    ∀ (fuel i padding_amount : Nat), 1 ≤ i → source.length ≤ i + fuel →
      padding_loop source source.length fuel i padding_amount
        = padding_amount + trailing_pad ((source.drop 1).reverse.drop (i - 1)) := by
  intro fuel
  induction fuel with
  | zero =>
    intro i p hi hf
    have : (source.drop 1).reverse.drop (i - 1) = [] := by
      apply List.drop_eq_nil_of_le
      simp
      omega
    rw [this]
    simp [padding_loop, trailing_pad]
  | succ fuel ih =>
    intro i p hi hf
    rw [padding_loop]
    by_cases h : i < source.length
    · have hlt : i - 1 < ((source.drop 1).reverse).length := by
        simp
        omega
      have hcons := List.drop_eq_getElem_cons hlt
      have hx : ((source.drop 1).reverse)[i - 1] = source.getD (source.length - i) 0 := by
        rw [List.getElem_reverse, List.getElem_drop]
        have hidx : source.length - i < source.length := by omega
        rw [List.getD_eq_getElem source 0 hidx]
        congr 1
        simp
        omega
      have hi1 : i - 1 + 1 = i + 1 - 1 := by omega
      rw [hcons, hx, hi1]
      simp only [h, if_true, trailing_pad]
      split
      · rw [ih (i + 1) (p + 1) (by omega) (by omega)]
        omega
      · split
        · rw [ih (i + 1) p (by omega) (by omega)]
        · rfl
    · have : (source.drop 1).reverse.drop (i - 1) = [] := by
        apply List.drop_eq_nil_of_le
        simp
        omega
      rw [this]
      simp [h, trailing_pad]

theorem padding_amount_eq (source : List Nat) :
    base32_calc_padding_amount source = trailing_pad (source.drop 1).reverse := by
  unfold base32_calc_padding_amount strlen
  rw [padding_loop_eq source source.length 1 0 (by omega) (by omega)]
  simp

theorem trailing_pad_replicate (k : Nat) (rest : List Nat) :
    trailing_pad (List.replicate k 61 ++ rest) = k + trailing_pad rest := by
  induction k with
  | zero => simp
  | succ k ih =>
    rw [List.replicate_succ, List.cons_append, trailing_pad, if_pos rfl, ih]
    omega

/-- The padding found in a line: content, `k` padding characters, newline. -/
theorem padding_amount_line (c : List Nat) (k : Nat) (x : Nat) (hx61 : x ≠ 61) (hx10 : x ≠ 10) :
    base32_calc_padding_amount ((c ++ [x]) ++ List.replicate k 61 ++ [10]) = k := by
  rw [padding_amount_eq]
  cases c with
  | nil =>
    simp only [List.nil_append, List.singleton_append, List.cons_append, List.drop_one,
      List.tail_cons, List.reverse_append, List.reverse_cons, List.reverse_nil,
      List.reverse_replicate]
    rw [trailing_pad, if_neg (by decide), if_pos rfl]
    have := trailing_pad_replicate k []
    simpa [trailing_pad] using this
  | cons a c =>
    simp only [List.cons_append, List.drop_one, List.tail_cons, List.reverse_append,
      List.reverse_cons, List.reverse_nil, List.nil_append, List.reverse_replicate,
      List.append_assoc, List.singleton_append]
    rw [trailing_pad, if_neg (by decide), if_pos rfl, trailing_pad_replicate]
    simp [trailing_pad, hx61, hx10]

/-! ## The bytes of a quantum of alphabet characters -/

theorem content_length_line (c : List Nat) (x k : Nat) (hx61 : x ≠ 61) (hx10 : x ≠ 10)
    (hlen : c.length + k + 2 < SIZE_MOD) :
    content_length ((c ++ [x]) ++ List.replicate k 61 ++ [10]) = c.length + 1 := by
  have hl : ((c ++ [x]) ++ List.replicate k 61 ++ [10]).length = c.length + k + 2 := by
    simp
    omega
  rw [content_length_eq _ (by omega) (by omega), padding_amount_line c k x hx61 hx10, hl]
  omega

theorem assign_eq_map (source : List Nat) (src k dst d : Nat) (f : Int → Int) (m : Mem) :
    assign source src dst d k f m
      = (read_symbol source (src + k)).map (fun v => store m (dst + d) (to_char (f v))) := by
  unfold assign read_symbol
  cases read_char source (src + k) <;> rfl

theorem or_assign_eq_map (source : List Nat) (src k dst d : Nat) (f : Int → Int) (m : Mem) :
    or_assign source src dst d k f m
      = (read_symbol source (src + k)).map
          (fun v => store m (dst + d) (load m (dst + d) ||| to_char (f v))) := by
  unfold or_assign read_symbol
  cases read_char source (src + k) <;> rfl

theorem assign_congr (s t : List Nat) (src k dst d : Nat) (f : Int → Int) (m : Mem)
    (h : read_symbol s (src + k) = read_symbol t (src + k)) :
    assign s src dst d k f m = assign t src dst d k f m := by
  rw [assign_eq_map, assign_eq_map, h]

theorem or_assign_congr (s t : List Nat) (src k dst d : Nat) (f : Int → Int) (m : Mem)
    (h : read_symbol s (src + k) = read_symbol t (src + k)) :
    or_assign s src dst d k f m = or_assign t src dst d k f m := by
  rw [or_assign_eq_map, or_assign_eq_map, h]

theorem case_2_congr (s t : List Nat) (src dst : Nat) (m : Mem)
    (h : ∀ k, k < 2 → read_symbol s (src + k) = read_symbol t (src + k)) :
    case_2 s src dst m = case_2 t src dst m := by
  simp only [case_2, assign_congr s t src 1 dst 0 _ _ (h 1 (by omega)),
    fun m1 => or_assign_congr s t src 0 dst 0 (fun v => shl v 3) m1 (h 0 (by omega))]

theorem case_4_congr (s t : List Nat) (src dst : Nat) (m : Mem)
    (h : ∀ k, k < 4 → read_symbol s (src + k) = read_symbol t (src + k)) :
    case_4 s src dst m = case_4 t src dst m := by
  simp only [case_4, assign_congr s t src 3 dst 1 _ _ (h 3 (by omega)),
    fun m1 => or_assign_congr s t src 2 dst 1 (fun v => shl (and_1F v) 1) m1 (h 2 (by omega)),
    fun m1 => or_assign_congr s t src 1 dst 1 (fun v => shl v 6) m1 (h 1 (by omega)),
    fun m1 => case_2_congr s t src dst m1 (fun k hk => h k (by omega))]

theorem case_5_congr (s t : List Nat) (src dst : Nat) (m : Mem)
    (h : ∀ k, k < 5 → read_symbol s (src + k) = read_symbol t (src + k)) :
    case_5 s src dst m = case_5 t src dst m := by
  simp only [case_5, assign_congr s t src 4 dst 2 _ _ (h 4 (by omega)),
    fun m1 => or_assign_congr s t src 3 dst 2 (fun v => shl v 4) m1 (h 3 (by omega)),
    fun m1 => case_4_congr s t src dst m1 (fun k hk => h k (by omega))]

theorem case_7_congr (s t : List Nat) (src dst : Nat) (m : Mem)
    (h : ∀ k, k < 7 → read_symbol s (src + k) = read_symbol t (src + k)) :
    case_7 s src dst m = case_7 t src dst m := by
  simp only [case_7, assign_congr s t src 6 dst 3 _ _ (h 6 (by omega)),
    fun m1 => or_assign_congr s t src 5 dst 3 (fun v => shl (and_1F v) 2) m1 (h 5 (by omega)),
    fun m1 => or_assign_congr s t src 4 dst 3 (fun v => shl v 7) m1 (h 4 (by omega)),
    fun m1 => case_5_congr s t src dst m1 (fun k hk => h k (by omega))]

theorem case_8_congr (s t : List Nat) (src dst : Nat) (m : Mem)
    (h : ∀ k, k < 8 → read_symbol s (src + k) = read_symbol t (src + k)) :
    case_8 s src dst m = case_8 t src dst m := by
  simp only [case_8, assign_congr s t src 7 dst 4 _ _ (h 7 (by omega)),
    fun m1 => or_assign_congr s t src 6 dst 4 (fun v => shl v 5) m1 (h 6 (by omega)),
    fun m1 => case_7_congr s t src dst m1 (fun k hk => h k (by omega))]

theorem unpack_quantum_congr (s t : List Nat) (src dst quantum_len : Nat) (m : Mem)
    (h : ∀ k, k < quantum_len → read_symbol s (src + k) = read_symbol t (src + k)) :
    unpack_quantum s src dst quantum_len m = unpack_quantum t src dst quantum_len m := by
  unfold unpack_quantum
  split
  · exact case_8_congr s t src dst m h
  · exact case_7_congr s t src dst m h
  · exact case_5_congr s t src dst m h
  · exact case_4_congr s t src dst m h
  · exact case_2_congr s t src dst m h
  · rfl

theorem decode_loop_congr (s t : List Nat) (quanta_amount last_quantum_len : Nat)
    (h : ∀ i k, i < quanta_amount →
      k < (if i = size_sub quanta_amount 1 then last_quantum_len else 8) →
      read_symbol s (8 * i + k) = read_symbol t (8 * i + k)) :
    ∀ (fuel i : Nat) (m : Mem),
      decode_loop s quanta_amount last_quantum_len fuel i (8 * i) (5 * i) m
        = decode_loop t quanta_amount last_quantum_len fuel i (8 * i) (5 * i) m := by
  intro fuel
  induction fuel with
  | zero => intro i m; rfl
  | succ fuel ih =>
    intro i m
    rw [decode_loop_succ, decode_loop_succ]
    by_cases hiq : i < quanta_amount
    · rw [if_pos hiq, if_pos hiq,
        unpack_quantum_congr s t (8 * i) (5 * i) _ m (fun k hk => h i k hiq hk)]
      congr 1
      funext m1
      by_cases hm : i = INT32_MAX
      · rw [if_pos hm, if_pos hm]
      · rw [if_neg hm, if_neg hm]
        exact ih (i + 1) m1
    · rw [if_neg hiq, if_neg hiq]

theorem calc_decoded_size_congr (s t : List Nat) (hn : content_length s = content_length t)
    (r : Nat) :
    base32_calc_decoded_size s (base32_calc_padding_amount s) r
      = base32_calc_decoded_size t (base32_calc_padding_amount t) r := by
  unfold base32_calc_decoded_size
  rw [calc_quanta_amount_eq, calc_quanta_amount_eq, hn]

/-- Two sources with the same content length, whose characters below it decode
alike, are executed alike. -/
theorem exec_congr (s t : List Nat) (hn : content_length s = content_length t)
    (h : ∀ idx, idx < content_length s → read_symbol s idx = read_symbol t idx) :
    base32_decode_exec s = base32_decode_exec t := by
  have hcl := content_length_lt s
  rw [exec_unfold, exec_unfold, ← hn, calc_decoded_size_congr t s hn.symm]
  by_cases hp : content_length s % 8 > 0
  · have hQ : size_add (content_length s / 8) 1 = content_length s / 8 + 1 := by
      unfold size_add
      unfold SIZE_MOD at *
      omega
    have hsub : size_sub (content_length s / 8 + 1) 1 = content_length s / 8 := by
      rw [size_sub_eq (by omega) (by unfold SIZE_MOD at *; omega)]
      omega
    have hloop := decode_loop_congr s t (content_length s / 8 + 1) (content_length s % 8)
      (by
        intro i k hi hk
        apply h
        rw [hsub] at hk
        by_cases hlast : i = content_length s / 8
        · rw [if_pos hlast] at hk
          omega
        · rw [if_neg hlast] at hk
          omega)
      (content_length s / 8 + 1) 0 []
    simp only [if_pos hp, hQ]
    rw [hloop]
  · have hloop := decode_loop_congr s t (content_length s / 8) 8
      (by
        intro i k hi hk
        apply h
        have hk8 : k < 8 := by
          split at hk <;> exact hk
        omega)
      (content_length s / 8) 0 []
    simp only [if_neg hp]
    rw [hloop]

theorem decode_congr (s t : List Nat) (hn : content_length s = content_length t)
    (h : ∀ idx, idx < content_length s → read_symbol s idx = read_symbol t idx) :
    base32_decode s = base32_decode t := by
  unfold base32_decode
  rw [exec_congr s t hn h]

/-! ## Lowercase input and padding of any length -/

theorem decode_char_to_lower (c : Nat) :
    base32_decode_char (to_lower c) = base32_decode_char c := by
  unfold base32_decode_char to_lower
  split_ifs <;> omega

theorem trailing_pad_map_lower (l : List Nat) :
    trailing_pad (l.map to_lower) = trailing_pad l := by
  induction l with
  | nil => rfl
  | cons c rest ih =>
    have h61 : to_lower c = 61 ↔ c = 61 := by
      unfold to_lower
      split_ifs <;> omega
    have h10 : to_lower c = 10 ↔ c = 10 := by
      unfold to_lower
      split_ifs <;> omega
    simp only [List.map_cons, trailing_pad, ih, h61, h10]

theorem padding_amount_map_lower (x : List Nat) :
    base32_calc_padding_amount (x.map to_lower) = base32_calc_padding_amount x := by
  rw [padding_amount_eq, padding_amount_eq, ← List.map_drop, ← List.map_reverse,
    trailing_pad_map_lower]

theorem content_length_map_lower (x : List Nat) :
    content_length (x.map to_lower) = content_length x := by
  unfold content_length strlen
  rw [padding_amount_map_lower, List.length_map]

theorem read_symbol_map_lower (x : List Nat) (idx : Nat) :
    read_symbol (x.map to_lower) idx = read_symbol x idx := by
  have h0 : to_lower 0 = 0 := rfl
  have hg : (x.map to_lower).getD idx 0 = to_lower (x.getD idx 0) := by
    have hmap := List.getD_map (l := x) (d := 0) (n := idx) to_lower
    rw [h0] at hmap
    exact hmap
  unfold read_symbol read_char
  rw [List.length_map, hg]
  split_ifs <;> simp [Except.map, decode_char_to_lower]

theorem decode_map_lower (x : List Nat) :
    base32_decode (x.map to_lower) = base32_decode x :=
  decode_congr _ _ (content_length_map_lower x) (fun idx _ => read_symbol_map_lower x idx)

theorem read_symbol_append (c rest : List Nat) (idx : Nat) (h : idx < c.length) :
    read_symbol (c ++ rest) idx = .ok (base32_decode_char (c.getD idx 0)) := by
  unfold read_symbol
  rw [read_char_ok (by simp; omega), List.getD_append _ _ _ _ h]
  rfl

theorem decode_line_padding (c : List Nat) (x k m : Nat) (hx61 : x ≠ 61) (hx10 : x ≠ 10)
    (hk : c.length + k + 2 < SIZE_MOD) (hm : c.length + m + 2 < SIZE_MOD) :
    base32_decode ((c ++ [x]) ++ List.replicate k 61 ++ [10])
      = base32_decode ((c ++ [x]) ++ List.replicate m 61 ++ [10]) := by
  have e1 := content_length_line c x k hx61 hx10 hk
  have e2 := content_length_line c x m hx61 hx10 hm
  apply decode_congr _ _ (by rw [e1, e2])
  intro idx hidx
  rw [e1] at hidx
  rw [List.append_assoc (c ++ [x]), List.append_assoc (c ++ [x]),
    read_symbol_append _ _ idx (by simp; omega), read_symbol_append _ _ idx (by simp; omega)]

/-! ## The packing of a full quantum -/

theorem read_symbol_error (source : List Nat) (idx : Nat) (a : Abort)
    (h : read_symbol source idx = .error a) : a = .read_oob idx := by
  unfold read_symbol read_char at h
  split_ifs at h
  · exact absurd h (by simp [Except.map])
  · exact absurd h (by simp [Except.map])
  · simp only [Except.map, Except.error.injEq] at h
    exact h.symm

theorem assign_error (source : List Nat) (src k dst d : Nat) (f : Int → Int) (m : Mem)
    (a : Abort) (h : assign source src dst d k f m = .error a) : a = .read_oob (src + k) := by
  rw [assign_eq_map] at h
  cases hr : read_symbol source (src + k) with
  | error b =>
    rw [hr] at h
    simp only [Except.map, Except.error.injEq] at h
    rw [← h]
    exact read_symbol_error source (src + k) b hr
  | ok v =>
    rw [hr] at h
    exact absurd h (by simp [Except.map])

theorem or_assign_error (source : List Nat) (src k dst d : Nat) (f : Int → Int) (m : Mem)
    (a : Abort) (h : or_assign source src dst d k f m = .error a) :
    a = .read_oob (src + k) := by
  rw [or_assign_eq_map] at h
  cases hr : read_symbol source (src + k) with
  | error b =>
    rw [hr] at h
    simp only [Except.map, Except.error.injEq] at h
    rw [← h]
    exact read_symbol_error source (src + k) b hr
  | ok v =>
    rw [hr] at h
    exact absurd h (by simp [Except.map])

/-- An early stop of a sequence of two steps is an early stop of one of them. -/
theorem bind_error (x : Except Abort Mem) (f : Mem → Except Abort Mem) (a : Abort)
    (h : x.bind f = .error a) : x = .error a ∨ ∃ m1, f m1 = .error a := by
  cases x with
  | error b =>
    left
    simpa [Except.bind] using h
  | ok m1 => exact Or.inr ⟨m1, h⟩

theorem case_2_error (source : List Nat) (src dst : Nat) (m : Mem) (a : Abort)
    (h : case_2 source src dst m = .error a) : ∃ idx, a = .read_oob idx := by
  rcases bind_error _ _ a h with h1 | ⟨m1, h1⟩
  · exact ⟨_, assign_error _ _ _ _ _ _ _ a h1⟩
  · exact ⟨_, or_assign_error _ _ _ _ _ _ _ a h1⟩

theorem case_4_error (source : List Nat) (src dst : Nat) (m : Mem) (a : Abort)
    (h : case_4 source src dst m = .error a) : ∃ idx, a = .read_oob idx := by
  rcases bind_error _ _ a h with h1 | ⟨m1, h1⟩
  · exact ⟨_, assign_error _ _ _ _ _ _ _ a h1⟩
  rcases bind_error _ _ a h1 with h2 | ⟨m2, h2⟩
  · exact ⟨_, or_assign_error _ _ _ _ _ _ _ a h2⟩
  rcases bind_error _ _ a h2 with h3 | ⟨m3, h3⟩
  · exact ⟨_, or_assign_error _ _ _ _ _ _ _ a h3⟩
  · exact case_2_error source src dst m3 a h3

theorem case_5_error (source : List Nat) (src dst : Nat) (m : Mem) (a : Abort)
    (h : case_5 source src dst m = .error a) : ∃ idx, a = .read_oob idx := by
  rcases bind_error _ _ a h with h1 | ⟨m1, h1⟩
  · exact ⟨_, assign_error _ _ _ _ _ _ _ a h1⟩
  rcases bind_error _ _ a h1 with h2 | ⟨m2, h2⟩
  · exact ⟨_, or_assign_error _ _ _ _ _ _ _ a h2⟩
  · exact case_4_error source src dst m2 a h2

theorem case_7_error (source : List Nat) (src dst : Nat) (m : Mem) (a : Abort)
    (h : case_7 source src dst m = .error a) : ∃ idx, a = .read_oob idx := by
  rcases bind_error _ _ a h with h1 | ⟨m1, h1⟩
  · exact ⟨_, assign_error _ _ _ _ _ _ _ a h1⟩
  rcases bind_error _ _ a h1 with h2 | ⟨m2, h2⟩
  · exact ⟨_, or_assign_error _ _ _ _ _ _ _ a h2⟩
  rcases bind_error _ _ a h2 with h3 | ⟨m3, h3⟩
  · exact ⟨_, or_assign_error _ _ _ _ _ _ _ a h3⟩
  · exact case_5_error source src dst m3 a h3

theorem case_8_error (source : List Nat) (src dst : Nat) (m : Mem) (a : Abort)
    (h : case_8 source src dst m = .error a) : ∃ idx, a = .read_oob idx := by
  rcases bind_error _ _ a h with h1 | ⟨m1, h1⟩
  · exact ⟨_, assign_error _ _ _ _ _ _ _ a h1⟩
  rcases bind_error _ _ a h1 with h2 | ⟨m2, h2⟩
  · exact ⟨_, or_assign_error _ _ _ _ _ _ _ a h2⟩
  · exact case_7_error source src dst m2 a h2

/-- On one of the lengths 8, 7, 5, 4, 2 the switch does not take its `default` branch. -/
theorem unpack_quantum_error (source : List Nat) (src dst quantum_len : Nat) (m : Mem)
    (a : Abort)
    (hL : quantum_len = 8 ∨ quantum_len = 7 ∨ quantum_len = 5 ∨ quantum_len = 4 ∨
      quantum_len = 2)
    (h : unpack_quantum source src dst quantum_len m = .error a) : ∃ idx, a = .read_oob idx := by
  rcases hL with e | e | e | e | e <;> subst e
  · exact case_8_error source src dst m a h
  · exact case_7_error source src dst m a h
  · exact case_5_error source src dst m a h
  · exact case_4_error source src dst m a h
  · exact case_2_error source src dst m a h

theorem decode_loop_error (source : List Nat) (quanta_amount last_quantum_len : Nat)
    (hL : last_quantum_len = 8 ∨ last_quantum_len = 7 ∨ last_quantum_len = 5 ∨
      last_quantum_len = 4 ∨ last_quantum_len = 2) :
    ∀ (fuel i src dst : Nat) (m : Mem) (a : Abort),
      decode_loop source quanta_amount last_quantum_len fuel i src dst m = .error a →
      ∀ quantum_len, a ≠ .invalid_quantum quantum_len := by
  intro fuel
  induction fuel with
  | zero =>
    intro i src dst m a h
    exact absurd h (by simp [decode_loop])
  | succ fuel ih =>
    intro i src dst m a h
    rw [decode_loop_succ] at h
    by_cases hiq : i < quanta_amount
    · rw [if_pos hiq] at h
      have hv : (if i = size_sub quanta_amount 1 then last_quantum_len else 8) = 8 ∨
          (if i = size_sub quanta_amount 1 then last_quantum_len else 8) = 7 ∨
          (if i = size_sub quanta_amount 1 then last_quantum_len else 8) = 5 ∨
          (if i = size_sub quanta_amount 1 then last_quantum_len else 8) = 4 ∨
          (if i = size_sub quanta_amount 1 then last_quantum_len else 8) = 2 := by
        split
        · exact hL
        · exact Or.inl rfl
      rcases bind_error _ _ a h with h1 | ⟨m1, h1⟩
      · obtain ⟨idx, e⟩ := unpack_quantum_error source src dst _ m a hv h1
        intro quantum_len
        rw [e]
        simp
      · by_cases hm : i = INT32_MAX
        · rw [if_pos hm] at h1
          injection h1 with h1
          intro quantum_len
          rw [← h1]
          simp
        · rw [if_neg hm] at h1
          exact ih (i + 1) (src + 8) (dst + 5) m1 a h1
    · rw [if_neg hiq] at h
      exact absurd h (by simp)

theorem calc_decoded_size_pos_valid (source : List Nat) (padding_amount r : Nat)
    (h : ¬ base32_calc_decoded_size source padding_amount r ≤ 0) :
    r = 8 ∨ r = 7 ∨ r = 5 ∨ r = 4 ∨ r = 2 := by
  unfold base32_calc_decoded_size at h
  split at h
  · exact Or.inl rfl
  · exact Or.inr (Or.inl rfl)
  · exact Or.inr (Or.inr (Or.inl rfl))
  · exact Or.inr (Or.inr (Or.inr (Or.inl rfl)))
  · exact Or.inr (Or.inr (Or.inr (Or.inr rfl)))
  · exact absurd (Nat.le_refl 0) h

/-- The `default` branch of the unpacking switch is never taken. -/
theorem exec_never_invalid_quantum (source : List Nat) (quantum_len : Nat) :
    base32_decode_exec source ≠ .aborted (.invalid_quantum quantum_len) := by
  intro h
  rw [exec_unfold] at h
  generalize hLdef : (if content_length source % 8 > 0 then content_length source % 8 else 8) = L
    at h
  generalize (if content_length source % 8 > 0 then size_add (content_length source / 8) 1
    else content_length source / 8) = Q at h
  by_cases hz : base32_calc_decoded_size source (base32_calc_padding_amount source) L ≤ 0
  · rw [if_pos hz] at h
    exact absurd h (by simp)
  · rw [if_neg hz] at h
    have hL := calc_decoded_size_pos_valid source _ L hz
    cases hloop : decode_loop source Q L Q 0 0 0 [] with
    | error a =>
      rw [hloop] at h
      injection h with h
      exact decode_loop_error source Q L hL Q 0 0 0 [] a hloop quantum_len h
    | ok m1 =>
      rw [hloop] at h
      exact absurd h (by simp)

theorem exec_invalid_size_inv (source : List Nat)
    (h : base32_decode_exec source = .invalid_size) :
    content_length source = 0 ∨ content_length source % 8 = 1 ∨
      content_length source % 8 = 3 ∨ content_length source % 8 = 6 := by
  by_contra hc
  have hcl := content_length_lt source
  rw [exec_unfold] at h
  by_cases hp : content_length source % 8 > 0
  · have hL : content_length source % 8 = 8 ∨ content_length source % 8 = 7 ∨
        content_length source % 8 = 5 ∨ content_length source % 8 = 4 ∨
        content_length source % 8 = 2 := by omega
    have hz : ¬ base32_calc_decoded_size source (base32_calc_padding_amount source)
        (content_length source % 8) ≤ 0 := by
      rw [calc_decoded_size_eq source _ hL]
      rcases hL with e | e | e | e | e
      · omega
      all_goals (rw [e]; simp [trailing_bytes])
    simp only [if_pos hp, if_neg hz] at h
    split at h <;> exact absurd h (by simp)
  · have hz : ¬ base32_calc_decoded_size source (base32_calc_padding_amount source) 8 ≤ 0 := by
      rw [calc_decoded_size_eq source 8 (Or.inl rfl)]
      omega
    simp only [if_neg hp, if_neg hz] at h
    split at h <;> exact absurd h (by simp)

/-- The exact condition under which `base32_decode` returns `NULL`. -/
theorem decode_null_iff (source : List Nat) :
    base32_decode source = .null ↔
      (content_length source = 0 ∨ content_length source % 8 = 1 ∨
        content_length source % 8 = 3 ∨ content_length source % 8 = 6) := by
  constructor
  · intro h
    unfold base32_decode at h
    split at h
    · rename_i he
      exact exec_invalid_size_inv source he
    · rename_i quantum_len he
      exact absurd he (exec_never_invalid_quantum source quantum_len)
    · exact absurd h (by simp)
    · exact absurd h (by simp)
  · exact base32_decode_invalid source

/-! ## The size of the buffer on a line, in the measures of the specification -/

/-- C2 fails on the code: `base32_decode_char` gives its error value for the
digit `1`, and `base32_decode` still returns a buffer for `N1SWY3DP`, with or
without a newline after it. -/
theorem C2_invalid_character_accepted :
    ¬ is_alphabet 49 ∧ base32_decode_char 49 = -1 ∧
    base32_decode [78, 49, 83, 87, 89, 51, 68, 80] = .buffer [255, 229, 108, 108] ∧
    base32_decode [78, 49, 83, 87, 89, 51, 68, 80, 10] = .buffer [255, 229, 108, 108, 111] := by
  decide

/-- C7 fails on the code: for the input made of one newline `base32_decode`
returns `NULL`, and for the empty string it reads `source[7]`, past the end. -/
theorem C7_empty_input_rejected :
    base32_decode [10] = .null ∧ base32_decode_exec [10] = .invalid_size ∧
    base32_decode [] = .undefined ∧ base32_decode_exec [] = .aborted (.read_oob 7) := by
  decide

/-- C9 fails on the code: for the empty string, whose `strlen` is 0, the first
read of the unpacking loop is at index 7. -/
theorem C9_read_past_end_of_empty_string :
    strlen [] = 0 ∧ base32_decode_exec [] = .aborted (.read_oob 7) := by
  decide

/-- C10 fails on the code: for `NBSWY3DP` and a newline the size passed to
`malloc` is 5, and the terminator is stored at index 5 of the buffer. -/
theorem C10_terminator_outside_allocation :
    base32_decode_exec [78, 66, 83, 87, 89, 51, 68, 80, 10]
      = .returned 5 [(5, 0), (0, 104), (0, 0), (1, 101), (1, 37), (1, 1), (2, 108), (2, 12),
          (3, 108), (3, 108), (3, 0), (4, 111), (4, 15)] := by
  decide

/-- C11: for every input, `base32_decode` gives the same outcome on the input
and on the input with every letter `A-Z` replaced by its lowercase letter. -/
theorem C11_case_insensitive (x : List Nat) :
    base32_decode (x.map to_lower) = base32_decode x :=
  decode_map_lower x

/-- C12 fails on the code: the line `MFRGG===` ends in a quantum of five
characters and is decoded to two bytes, `ab`, not three; after one full quantum,
`NBSWY3DPMFRGG===`, the decoded length is 7 and not `5 * 1 + 3`. -/
theorem C12_five_characters_give_two_bytes :
    base32_calc_last_quanta_len [77, 70, 82, 71, 71, 61, 61, 61, 10]
      (base32_calc_padding_amount [77, 70, 82, 71, 71, 61, 61, 61, 10]) = 5 ∧
    base32_decode [77, 70, 82, 71, 71, 61, 61, 61, 10] = .buffer [97, 98] ∧
    base32_decode [78, 66, 83, 87, 89, 51, 68, 80, 77, 70, 82, 71, 71, 61, 61, 61, 10]
      = .buffer [104, 101, 108, 108, 111, 97, 98] := by
  decide

/-- C14 fails on the code: for a final quantum of five characters the switch
stores at three destination bytes, 0 to 2, while `base32_calc_decoded_size`
counts two; on the line `MFRGG===` the size is 2 and the switch stores the byte
`c` at index 2, where the terminator then goes. -/
theorem C14_five_characters_store_three_bytes :
    unpack_quantum [77, 70, 82, 71, 71, 61, 61, 61, 10] 0 0 5 []
      = .ok [(0, 97), (0, 1), (1, 98), (1, 34), (1, 0), (2, 99), (2, 3)] ∧
    base32_calc_decoded_size [77, 70, 82, 71, 71, 61, 61, 61, 10]
      (base32_calc_padding_amount [77, 70, 82, 71, 71, 61, 61, 61, 10]) 5 = 2 ∧
    base32_decode_exec [77, 70, 82, 71, 71, 61, 61, 61, 10]
      = .returned 2 [(2, 0), (0, 97), (0, 1), (1, 98), (1, 34), (1, 0), (2, 99), (2, 3)] := by
  refine ⟨rfl, ?_, ?_⟩ <;> decide

/-- C15 fails on the code: the loop of `base32_calc_padding_amount` never looks
at `source[0]`, so on `=` it finds no padding, on `==` one, and on `=` followed
by a newline none, where the trailing run holds 1, 2 and 1 characters `'='`. -/
theorem C15_first_character_not_counted :
    base32_calc_padding_amount [61] = 0 ∧ spec_padding [61] = 1 ∧
    base32_calc_padding_amount [61, 61] = 1 ∧ spec_padding [61, 61] = 2 ∧
    base32_calc_padding_amount [61, 10] = 0 ∧ spec_padding [61, 10] = 1 := by
  decide

/-- C16: `base32_decode_char` maps `A-Z` to 0-25, a lowercase letter to the
value of its uppercase letter, `2-7` to 26-31 and every other character to -1;
its result lies in 0..31 exactly for the characters of the alphabet, where it is
the 5-bit value of the specification. -/
theorem C16_alphabet_mapping (c : Nat) :
    base32_decode_char c =
      (if 65 ≤ c ∧ c ≤ 90 then (c : Int) - 65
       else if 97 ≤ c ∧ c ≤ 122 then base32_decode_char (c - 32)
       else if 50 ≤ c ∧ c ≤ 55 then (c : Int) - 50 + 26
       else -1) ∧
    ((0 ≤ base32_decode_char c ∧ base32_decode_char c ≤ 31) ↔ is_alphabet c) ∧
    (if is_alphabet c then base32_decode_char c = (symbol_value c : Int)
     else base32_decode_char c = -1) := by
  unfold base32_decode_char is_alphabet symbol_value
  refine ⟨?_, ?_, ?_⟩
  · split_ifs <;> omega
  · split_ifs <;> omega
  · split_ifs <;> omega

/-- C17: for every non-empty input, with `n = strlen(s) - 1 - padding`,
`base32_decode` returns `NULL` exactly when `n = 0` or `n mod 8` is 1, 3 or 6;
so two inputs of the same length with the same padding amount are rejected
together, whatever their characters. -/
theorem C17_exact_failure_condition (source : List Nat) (hne : source ≠ [])
    (hlen : source.length < 2 ^ 64) :
    (base32_decode source = .null ↔
      (source.length - 1 - base32_calc_padding_amount source = 0 ∨
        (source.length - 1 - base32_calc_padding_amount source) % 8 = 1 ∨
        (source.length - 1 - base32_calc_padding_amount source) % 8 = 3 ∨
        (source.length - 1 - base32_calc_padding_amount source) % 8 = 6)) ∧
    ∀ other : List Nat, other.length = source.length →
      base32_calc_padding_amount other = base32_calc_padding_amount source →
      (base32_decode other = .null ↔ base32_decode source = .null) := by
  have h1 : 1 ≤ source.length := List.length_pos.mpr hne
  have e := content_length_eq source h1 hlen
  constructor
  · rw [decode_null_iff, e]
  · intro other hl hp
    have e2 : content_length other = content_length source := by
      unfold content_length strlen
      rw [hl, hp]
    rw [decode_null_iff, decode_null_iff, e2]

/-- A witness of C17: the line `ABC`, with a content of three characters. -/
theorem C17_exact_failure_condition_witness :
    base32_decode [65, 66, 67, 10] = .null :=
  (C17_exact_failure_condition [65, 66, 67, 10] (by decide) (by decide)).1.mpr (by decide)

/-- C18: when `base32_calc_decoded_size` returns a non-zero size, the length of
the last quantum is one of 8, 7, 5, 4, 2, every other quantum being dispatched
on 8, and no execution of `base32_decode` ends in the `default` branch of the
unpacking switch. -/
theorem C18_default_branch_unreachable (source : List Nat)
    (h : base32_calc_decoded_size source (base32_calc_padding_amount source)
      (if base32_calc_last_quanta_len source (base32_calc_padding_amount source) > 0
        then base32_calc_last_quanta_len source (base32_calc_padding_amount source)
        else QUANTA_SIZE) ≠ 0) :
    (if base32_calc_last_quanta_len source (base32_calc_padding_amount source) > 0
        then base32_calc_last_quanta_len source (base32_calc_padding_amount source)
        else QUANTA_SIZE) ∈ [8, 7, 5, 4, 2] ∧
    ∀ quantum_len, base32_decode_exec source ≠ .aborted (.invalid_quantum quantum_len) := by
  constructor
  · have hv := calc_decoded_size_pos_valid source _ _ (fun hle => h (Nat.le_zero.mp hle))
    simp only [List.mem_cons, List.mem_singleton, List.not_mem_nil, or_false]
    exact hv
  · exact exec_never_invalid_quantum source

/-- A witness of C18: the line `MFRGG===`, dispatched on a last quantum of 5. -/
theorem C18_default_branch_unreachable_witness :
    (if base32_calc_last_quanta_len [77, 70, 82, 71, 71, 61, 61, 61, 10]
          (base32_calc_padding_amount [77, 70, 82, 71, 71, 61, 61, 61, 10]) > 0
        then base32_calc_last_quanta_len [77, 70, 82, 71, 71, 61, 61, 61, 10]
          (base32_calc_padding_amount [77, 70, 82, 71, 71, 61, 61, 61, 10])
        else QUANTA_SIZE) ∈ [8, 7, 5, 4, 2] ∧
    ∀ quantum_len, base32_decode_exec [77, 70, 82, 71, 71, 61, 61, 61, 10]
      ≠ .aborted (.invalid_quantum quantum_len) :=
  C18_default_branch_unreachable [77, 70, 82, 71, 71, 61, 61, 61, 10] (by decide)

/-- C19: for every content that ends in a character `x` other than `'='` and
newline, `base32_decode` gives the same outcome whatever the number of `'='`
between the content and the newline. -/
theorem C19_padding_count_invariance (c : List Nat) (x k m : Nat)
    (hx61 : x ≠ 61) (hx10 : x ≠ 10)
    (hk : c.length + k + 2 < 2 ^ 64) (hm : c.length + m + 2 < 2 ^ 64) :
    base32_decode ((c ++ [x]) ++ List.replicate k 61 ++ [10])
      = base32_decode ((c ++ [x]) ++ List.replicate m 61 ++ [10]) :=
  decode_line_padding c x k m hx61 hx10 hk hm

/-- A witness of C19: `NBSWY3A` with one padding character and with five. -/
theorem C19_padding_count_invariance_witness :
    base32_decode (([78, 66, 83, 87, 89, 51] ++ [65]) ++ List.replicate 1 61 ++ [10])
      = base32_decode (([78, 66, 83, 87, 89, 51] ++ [65]) ++ List.replicate 5 61 ++ [10]) :=
  C19_padding_count_invariance [78, 66, 83, 87, 89, 51] 65 1 5 (by decide) (by decide)
    (by decide) (by decide)

end Base32
